import Mathlib

/-!
Shallow embedding of the crawl-orchestration core of the `seo-crawler`
repository (`src/services/seo-crawler-service.ts`): the robots.txt parser
(`fetchRobotsTxt`), the sitemap resolver (`fetchSitemap`), the per-page link
classification of `analyzePage`, and the bounded traversal loop of
`crawlSite`.  Network fetches and HTML parsing are external collaborators in
the source; they appear here as explicit oracles (functions from URL strings
to optional fetched content), so every definition is executable.
-/

namespace SeoCrawler

/-! ## JavaScript string primitives used by the source

The source is JavaScript; `startsWith`, `trim`, `toLowerCase`, `substring`
and `split` are embedded here as character-list functions (for the ASCII
directive matching the crawler performs, code units and characters agree). -/

/-- Embedding of `s.startsWith(pre)`. -/
def jsStartsWith (s pre : String) : Bool :=
  pre.data.isPrefixOf s.data

/-- Whitespace test used by `trim`. -/
def jsIsWs (c : Char) : Bool :=
  c.isWhitespace

/-- Embedding of `s.trim()`: strip leading and trailing whitespace. -/
def jsTrim (s : String) : String :=
  ⟨((s.data.dropWhile jsIsWs).reverse.dropWhile jsIsWs).reverse⟩

/-- Embedding of `c.toLowerCase()` for one character (ASCII). -/
def jsCharLower (c : Char) : Char :=
  if 'A' ≤ c ∧ c ≤ 'Z' then Char.ofNat (c.toNat + 32) else c

/-- Embedding of `s.toLowerCase()`. -/
def jsToLower (s : String) : String :=
  ⟨s.data.map jsCharLower⟩

/-- Embedding of `s.substring(n)`: drop the first `n` code units. -/
def jsDrop (s : String) (n : Nat) : String :=
  ⟨s.data.drop n⟩

/-- Split a character list at a separator character, the core of
`s.split(sep)`. -/
def splitOnCharList (sep : Char) : List Char → List (List Char)
  | [] => [[]]
  | c :: t =>
    let r := splitOnCharList sep t
    if c = sep then [] :: r
    else
      match r with
      | [] => [[c]]
      | h :: t' => (c :: h) :: t'

/-- Embedding of `s.split('\n')`. -/
def jsSplitNewline (s : String) : List String :=
  (splitOnCharList '\n' s.data).map fun cs => String.mk cs


/-! ## URL model

The source uses the WHATWG `new URL(href, base)` constructor.  We model the
fragment of it the crawler exercises: absolute `http`/`https` URLs
(`scheme://host/path`), protocol-relative (`//host/path`), other-scheme
opaque URLs (`mailto:...`, which resolve with an empty hostname), root-relative
paths, and path-relative references resolved against the base's directory.
`new URL` throws on an `http(s)` URL with an empty host; that is the `none`
case. -/

structure ParsedUrl where
  scheme : String
  host : String
  path : String
  deriving Repr, DecidableEq

/-- Split the part of an absolute URL after `scheme://` into host and path;
an empty path serializes as `/`, as `new URL(...).toString()` does. -/
def splitHostPath (rest : String) : String × String :=
  let hostChars := rest.data.takeWhile (fun c => c ≠ '/')
  let pathChars := rest.data.drop hostChars.length
  (⟨hostChars⟩, if pathChars.isEmpty then "/" else ⟨pathChars⟩)

/-- Parse an absolute `http`/`https` URL, the embedding of `new URL(s)` for
the URL forms the crawler handles; `none` models the constructor throwing. -/
def parseUrl (s : String) : Option ParsedUrl :=
  if jsStartsWith s "http://" then
    let (h, p) := splitHostPath (jsDrop s 7)
    if h = "" then none else some ⟨"http", h, p⟩
  else if jsStartsWith s "https://" then
    let (h, p) := splitHostPath (jsDrop s 8)
    if h = "" then none else some ⟨"https", h, p⟩
  else none

/-- Directory of a path: everything up to and including the last `/`
(used for resolving path-relative references). -/
def dirOf (path : String) : String :=
  let rev := path.data.reverse
  ⟨(rev.drop (rev.takeWhile (fun c => c ≠ '/')).length).reverse⟩

/-- Leading scheme of a reference (letters before a `:`), if any;
`mailto:x` has scheme `mailto`, while `/a` and `contact` have none. -/
def schemeOf (href : String) : Option String :=
  let pre := href.data.takeWhile (fun c => c ≠ ':' ∧ c ≠ '/')
  if pre ≠ [] ∧ pre.all Char.isAlpha ∧ href.data.get? pre.length = some ':' then
    some ⟨pre⟩
  else none

/-- Embedding of `new URL(href, base)` for the reference forms the crawler
meets.  `none` models the constructor throwing (an `http(s)` reference with
an empty host, e.g. `http://`). -/
def resolveUrl (href : String) (base : ParsedUrl) : Option ParsedUrl :=
  if jsStartsWith href "http://" ∨ jsStartsWith href "https://" then
    parseUrl href
  else if jsStartsWith href "//" then
    parseUrl (base.scheme ++ ":" ++ href)
  else
    match schemeOf href with
    | some sch => some ⟨sch, "", jsDrop href (sch.length + 1)⟩
    | none =>
      if href = "" then some base
      else if jsStartsWith href "/" then some ⟨base.scheme, base.host, href⟩
      else some ⟨base.scheme, base.host, dirOf base.path ++ href⟩

/-- Serialization `url.toString()`: opaque-scheme URLs have no `//`. -/
def urlToString (u : ParsedUrl) : String :=
  if u.host = "" then u.scheme ++ ":" ++ u.path
  else u.scheme ++ "://" ++ u.host ++ u.path

/-- Origin `scheme://host` of a URL, the embedding of `new URL(u).origin`. -/
def urlOrigin (u : ParsedUrl) : String :=
  u.scheme ++ "://" ++ u.host

/-! ## JavaScript numeric primitives used by the source -/

/-- Value of a decimal digit string. -/
def digitsToNat (l : List Char) : Nat :=
  l.foldl (fun acc c => acc * 10 + (c.toNat - 48)) 0

/-- Embedding of JavaScript `parseInt` on the decimal inputs the robots
parser meets: optional leading whitespace and sign, then a non-empty run of
leading digits; `none` models `NaN`. -/
def jsParseInt (s : String) : Option Int :=
  let l := s.data.dropWhile (fun c => c.isWhitespace)
  let (neg, l') :=
    match l with
    | '-' :: t => (true, t)
    | '+' :: t => (false, t)
    | _ => (false, l)
  let ds := l'.takeWhile Char.isDigit
  if ds.isEmpty then none
  else some ((if neg then -1 else 1) * (digitsToNat ds : Int))

/-- Embedding of `parseInt(s) || null`: `NaN` and `0` (both falsy) become
`null`. -/
def jsParseIntOrNull (s : String) : Option Int :=
  match jsParseInt s with
  | none => none
  | some n => if n = 0 then none else some n

/-- Truthiness of a nullable number: `null`, `0` are falsy. -/
def jsTruthy : Option Int → Bool
  | none => false
  | some n => n != 0

/-- Substring test on character lists, the embedding of
`String.prototype.includes`. -/
def containsSub : List Char → List Char → Bool
  | l, p =>
    if p.isPrefixOf l then true
    else
      match l with
      | [] => false
      | _ :: t => containsSub t p

/-- Embedding of `s.includes(pat)`. -/
def jsIncludes (s pat : String) : Bool :=
  containsSub s.data pat.data

/-! ## Robots.txt parsing (`fetchRobotsTxt`)

The source splits the fetched body on newlines and matches three directive
forms, case-insensitively, on the trimmed line.  The fetch itself is
external; `fetchRobotsTxt` here takes the fetched body (`none` models the
catch branch: fetch failure yields the empty policy). -/

structure RobotsTxt where
  sitemaps : List String
  disallowed : List String
  crawlDelay : Option Int
  deriving Repr, DecidableEq

/-- The empty robots policy, the source's initial/fallback value. -/
def emptyRobots : RobotsTxt := ⟨[], [], none⟩

/-- Test for a `sitemap:` directive line (on the trimmed, lowercased line). -/
def isSitemapLine (line : String) : Bool :=
  jsStartsWith (jsToLower (jsTrim line)) "sitemap:"

/-- Test for a `disallow:` directive line. -/
def isDisallowLine (line : String) : Bool :=
  jsStartsWith (jsToLower (jsTrim line)) "disallow:"

/-- Test for a line that reaches the `crawl-delay:` branch of the source's
if-chain: it is not matched by the two earlier branches and starts (after
trimming and lowercasing) with `crawl-delay:`. -/
def isCrawlDelayLine (line : String) : Bool :=
  !isSitemapLine line && !isDisallowLine line &&
    jsStartsWith (jsToLower (jsTrim line)) "crawl-delay:"

/-- Crawl-delay value a `crawl-delay:` line assigns:
`parseInt(trimmed.substring(12).trim()) || null`. -/
def crawlDelayOfLine (line : String) : Option Int :=
  jsParseIntOrNull (jsTrim (jsDrop (jsTrim line) 12))

/-- One iteration of the source's line loop. -/
def parseRobotsLine (st : RobotsTxt) (line : String) : RobotsTxt :=
  if isSitemapLine line then
    { st with sitemaps := st.sitemaps ++ [jsTrim (jsDrop (jsTrim line) 8)] }
  else if isDisallowLine line then
    { st with disallowed := st.disallowed ++ [jsTrim (jsDrop (jsTrim line) 9)] }
  else if jsStartsWith (jsToLower (jsTrim line)) "crawl-delay:" then
    { st with crawlDelay := crawlDelayOfLine line }
  else st

/-- Embedding of `fetchRobotsTxt`: parse the fetched body line by line;
a failed fetch (`none`) yields the empty policy. -/
def fetchRobotsTxt (body : Option String) : RobotsTxt :=
  match body with
  | none => emptyRobots
  | some content => (jsSplitNewline content).foldl parseRobotsLine emptyRobots

/-! ## Sitemap resolution (`fetchSitemap`)

The source loads the fetched document with cheerio and runs two extraction
passes: texts of `loc` elements nested under `sitemap` elements, then texts
of `loc` elements nested under `url` elements, both pushed into one `urls`
array in that order.  If the document has at least one `sitemap` element it
recursively fetches EVERY entry of that combined array.  A `SitemapDoc`
records the outcome of those extraction passes for one fetched document;
the web of documents is an oracle.  The source recursion has no depth or
cycle guard; `fuel` makes the embedding total, with exhausted fuel returning
the empty list (the value the source's catch produces for a failed branch). -/

structure SitemapDoc where
  sitemapLocs : List String
  urlLocs : List String
  numSitemapElems : Nat
  deriving Repr, DecidableEq

/-- Embedding of `fetchSitemap`.  A fetch/parse failure (`none` from the
oracle) returns `[]` (the catch branch). -/
def fetchSitemap (web : String → Option SitemapDoc) : Nat → String → List String
  | 0, _ => []
  | fuel + 1, u =>
    match web u with
    | none => []
    | some doc =>
      let urls := doc.sitemapLocs ++ doc.urlLocs
      if doc.numSitemapElems > 0 then
        urls.foldl (fun acc child => acc ++ fetchSitemap web fuel child) []
      else urls

/-! ## Page analysis (`analyzePage`): link extraction and classification

Rendering and HTML parsing are external; for each anchor element the source
reads `href`, the anchor text, and `rel`.  The crawl-relevant output of
`analyzePage` is the page URL and its classified links (title, headings,
word count, images, social tags etc. are carried through to the result
record unchanged and play no role in any claim). -/

structure Anchor where
  href : String
  text : String
  rel : String
  deriving Repr, DecidableEq

structure LinkInfo where
  href : String
  text : String
  isInternal : Bool
  isNofollow : Bool
  deriving Repr, DecidableEq

structure PageAnalysis where
  url : String
  links : List LinkInfo
  deriving Repr, DecidableEq

/-- Embedding of the source's per-anchor classification:
`try { isInternal = new URL(href, url).hostname === baseDomain } catch
{ isInternal = href.startsWith('/') || !href.startsWith('http') }`, where
`baseDomain = new URL(url).hostname` is the hostname of the page being
analyzed. -/
def classifyInternal (href : String) (pageU : ParsedUrl) : Bool :=
  match resolveUrl href pageU with
  | some linkUrl => linkUrl.host == pageU.host
  | none => jsStartsWith href "/" || !(jsStartsWith href "http")

/-- Link extraction of `analyzePage`: one `LinkInfo` per anchor, in order. -/
def extractLinks (pageU : ParsedUrl) (anchors : List Anchor) : List LinkInfo :=
  anchors.map fun a =>
    { href := a.href
      text := a.text
      isInternal := classifyInternal a.href pageU
      isNofollow := jsIncludes a.rel "nofollow" }

/-- Embedding of `analyzePage`: render/extract via the `web` oracle (whose
`none` models a thrown fetch/render error) and classify the links.
`new URL(url)` throwing on an unparseable page URL is also a thrown error. -/
def analyzePage (web : String → Option (List Anchor)) (url : String) :
    Option PageAnalysis :=
  match parseUrl url, web url with
  | some pageU, some anchors => some { url := url, links := extractLinks pageU anchors }
  | _, _ => none

/-! ## The crawl loop (`crawlSite`)

`urlsToCrawl` and `crawledUrls` are JavaScript `Set`s: insertion-ordered,
duplicate-free — modelled as duplicate-free lists with order-preserving
insertion.  The loop header `for (const pageUrl of Array.from(urlsToCrawl))`
takes a SNAPSHOT array of the set when the loop starts; elements added to
`urlsToCrawl` afterwards are not iterated.  The politeness sleeps are
recorded (in milliseconds, in order) so that pacing claims are statable. -/

/-- Insertion-ordered, duplicate-free insertion: `Set.prototype.add`. -/
def setAdd (s : List String) (x : String) : List String :=
  if x ∈ s then s else s ++ [x]

structure CrawlState where
  results : List PageAnalysis
  urlsToCrawl : List String
  crawledUrls : List String
  sleepsMs : List Int
  deriving Repr, DecidableEq

/-- Politeness interval of one iteration:
`robotsTxt.crawlDelay` (seconds, truthy) scaled to ms, else the fixed 1000ms
default. -/
def effectiveDelayMs (cd : Option Int) : Int :=
  match cd with
  | some d => if d ≠ 0 then d * 1000 else 1000
  | none => 1000

/-- One discovered link of the link block: resolve against the page URL
(silently skipping resolution failures) and add to `urlsToCrawl` unless
already crawled. -/
def offerStep (pageU : ParsedUrl) (s : CrawlState) (l : LinkInfo) : CrawlState :=
  match resolveUrl l.href pageU with
  | some abs =>
    let absStr := urlToString abs
    if absStr ∈ s.crawledUrls then s
    else { s with urlsToCrawl := setAdd s.urlsToCrawl absStr }
  | none => s

/-- Embedding of the discovered-link block: each link with `isInternal` and
not `isNofollow` is offered via `offerStep`. -/
def offerLinks (pageU : ParsedUrl) (links : List LinkInfo) (st : CrawlState) :
    CrawlState :=
  (links.filter fun l => l.isInternal && !l.isNofollow).foldl (offerStep pageU) st

/-- Embedding of the `for (const pageUrl of Array.from(urlsToCrawl))` loop
body over the snapshot list: break once `crawledUrls.size >= maxPages`,
skip already-crawled URLs, and otherwise attempt the page.  On success the
record and URL are appended, discovered links offered, and one politeness
sleep taken; on a thrown error (`analyzePage` returning `none`) the
iteration only logs — no state changes and no sleep. -/
def crawlLoop (web : String → Option (List Anchor)) (cd : Option Int)
    (maxPages : Nat) : List String → CrawlState → CrawlState
  | [], st => st
  | pageUrl :: rest, st =>
    if maxPages ≤ st.crawledUrls.length then st
    else if pageUrl ∈ st.crawledUrls then crawlLoop web cd maxPages rest st
    else
      match parseUrl pageUrl, analyzePage web pageUrl with
      | some pageU, some analysis =>
        let st1 := { st with
          results := st.results ++ [analysis]
          crawledUrls := st.crawledUrls ++ [pageUrl] }
        let st2 := offerLinks pageU analysis.links st1
        let st3 := { st2 with sleepsMs := st2.sleepsMs ++ [effectiveDelayMs cd] }
        crawlLoop web cd maxPages rest st3
      | _, _ => crawlLoop web cd maxPages rest st

structure CrawlConfig where
  url : String
  maxPages : Nat
  followSitemap : Bool
  respectRobotsTxt : Bool
  deriving Repr, DecidableEq

/-- Robots policy the crawl uses: fetched and parsed when
`respectRobotsTxt`, else the initial empty policy. -/
def effectiveRobots (respect : Bool) (robotsBody : Option String) : RobotsTxt :=
  if respect then fetchRobotsTxt robotsBody else emptyRobots

/-- The frontier as seeded before the loop: the seed URL, then (when
`followSitemap`) every URL of every resolved sitemap — the robots-declared
sitemaps when non-empty, else the guessed `<origin>/sitemap.xml`. -/
def seededFrontier (robots : RobotsTxt)
    (sitemapWeb : String → Option SitemapDoc) (fuel : Nat)
    (cfg : CrawlConfig) (baseUrl : String) : List String :=
  let t0 := [cfg.url]
  if cfg.followSitemap then
    let sitemapUrls :=
      if robots.sitemaps.length > 0 then robots.sitemaps
      else [baseUrl ++ "/sitemap.xml"]
    sitemapUrls.foldl
      (fun acc su => (fetchSitemap sitemapWeb fuel su).foldl setAdd acc) t0
  else t0

/-- Everything observable about one finished crawl: the returned records
plus the final traversal state and the parsed robots policy. -/
structure CrawlOutcome where
  robots : RobotsTxt
  results : List PageAnalysis
  urlsToCrawl : List String
  crawledUrls : List String
  sleepsMs : List Int
  deriving Repr, DecidableEq

/-- The crawl with the robots policy already resolved: seed the frontier,
snapshot it, run the loop. -/
def crawlFromRobots (web : String → Option (List Anchor)) (robots : RobotsTxt)
    (sitemapWeb : String → Option SitemapDoc) (fuel : Nat)
    (cfg : CrawlConfig) (seedU : ParsedUrl) : CrawlOutcome :=
  let baseUrl := urlOrigin seedU
  let seeded := seededFrontier robots sitemapWeb fuel cfg baseUrl
  let stF := crawlLoop web robots.crawlDelay cfg.maxPages seeded
    ⟨[], seeded, [], []⟩
  ⟨robots, stF.results, stF.urlsToCrawl, stF.crawledUrls, stF.sleepsMs⟩

/-- Embedding of `crawlSite`.  `web` is the renderer/extractor oracle,
`robotsBody` the robots.txt fetch outcome, `sitemapWeb`/`fuel` the sitemap
oracle.  `new URL(url)` throwing on a malformed seed aborts the whole crawl
(`none`). -/
def crawlSite (web : String → Option (List Anchor))
    (robotsBody : Option String)
    (sitemapWeb : String → Option SitemapDoc) (fuel : Nat)
    (cfg : CrawlConfig) : Option CrawlOutcome :=
  match parseUrl cfg.url with
  | none => none
  | some seedU =>
    some (crawlFromRobots web (effectiveRobots cfg.respectRobotsTxt robotsBody)
      sitemapWeb fuel cfg seedU)

/-! ## Basic lemmas about the set and frontier primitives -/

theorem setAdd_mem_of_mem {s : List String} {x : String} (y : String)
    (h : x ∈ s) : x ∈ setAdd s y := by
  unfold setAdd
  split
  · exact h
  · exact List.mem_append_left _ h

theorem setAdd_nodup {s : List String} (y : String) (h : s.Nodup) :
    (setAdd s y).Nodup := by
  unfold setAdd
  split
  · exact h
  · next hy =>
    simpa [List.nodup_append] using ⟨h, hy⟩

theorem foldl_setAdd_nodup (ls : List String) :
    ∀ s : List String, s.Nodup → (ls.foldl setAdd s).Nodup := by
  induction ls with
  | nil => intro s h; exact h
  | cons a t ih =>
    intro s h
    exact ih (setAdd s a) (setAdd_nodup a h)

theorem seededFrontier_nodup (robots : RobotsTxt)
    (smw : String → Option SitemapDoc) (fuel : Nat) (cfg : CrawlConfig)
    (baseUrl : String) : (seededFrontier robots smw fuel cfg baseUrl).Nodup := by
  unfold seededFrontier
  have base : ([cfg.url]).Nodup := by simp
  split
  · have : ∀ (sms : List String) (acc : List String), acc.Nodup →
        (sms.foldl (fun acc su => (fetchSitemap smw fuel su).foldl setAdd acc)
          acc).Nodup := by
      intro sms
      induction sms with
      | nil => intro acc h; exact h
      | cons a t ih =>
        intro acc h
        exact ih _ (foldl_setAdd_nodup _ _ h)
    exact this _ _ base
  · exact base

theorem analyzePage_url {web : String → Option (List Anchor)} {u : String}
    {a : PageAnalysis} (h : analyzePage web u = some a) : a.url = u := by
  unfold analyzePage at h
  cases hp : parseUrl u with
  | none => rw [hp] at h; cases h
  | some pu =>
    rw [hp] at h
    cases hw : web u with
    | none => rw [hw] at h; cases h
    | some anchors =>
      rw [hw] at h
      cases h
      rfl

theorem analyzePage_none_of_parseUrl_none {web : String → Option (List Anchor)}
    {u : String} (h : parseUrl u = none) : analyzePage web u = none := by
  unfold analyzePage
  rw [h]

/-! ## Lemmas about the discovered-link block -/

theorem offerStep_proj (pageU : ParsedUrl) (s : CrawlState) (l : LinkInfo) :
    (offerStep pageU s l).results = s.results ∧
    (offerStep pageU s l).crawledUrls = s.crawledUrls ∧
    (offerStep pageU s l).sleepsMs = s.sleepsMs := by
  unfold offerStep
  cases resolveUrl l.href pageU with
  | none => exact ⟨rfl, rfl, rfl⟩
  | some abs =>
    simp only []
    split
    · exact ⟨rfl, rfl, rfl⟩
    · exact ⟨rfl, rfl, rfl⟩

theorem offerStep_toCrawl_mono (pageU : ParsedUrl) (s : CrawlState)
    (l : LinkInfo) {x : String} (h : x ∈ s.urlsToCrawl) :
    x ∈ (offerStep pageU s l).urlsToCrawl := by
  unfold offerStep
  cases resolveUrl l.href pageU with
  | none => exact h
  | some abs =>
    simp only []
    split
    · exact h
    · exact setAdd_mem_of_mem _ h

theorem foldl_offerStep_proj (pageU : ParsedUrl) (ls : List LinkInfo) :
    ∀ s : CrawlState,
      (ls.foldl (offerStep pageU) s).results = s.results ∧
      (ls.foldl (offerStep pageU) s).crawledUrls = s.crawledUrls ∧
      (ls.foldl (offerStep pageU) s).sleepsMs = s.sleepsMs := by
  induction ls with
  | nil => intro s; exact ⟨rfl, rfl, rfl⟩
  | cons a t ih =>
    intro s
    have h1 := offerStep_proj pageU s a
    have h2 := ih (offerStep pageU s a)
    exact ⟨h2.1.trans h1.1, h2.2.1.trans h1.2.1, h2.2.2.trans h1.2.2⟩

theorem offerLinks_proj (pageU : ParsedUrl) (links : List LinkInfo)
    (st : CrawlState) :
    (offerLinks pageU links st).results = st.results ∧
    (offerLinks pageU links st).crawledUrls = st.crawledUrls ∧
    (offerLinks pageU links st).sleepsMs = st.sleepsMs :=
  foldl_offerStep_proj pageU _ st

theorem offerLinks_toCrawl_mono (pageU : ParsedUrl) (links : List LinkInfo)
    (st : CrawlState) {x : String} (h : x ∈ st.urlsToCrawl) :
    x ∈ (offerLinks pageU links st).urlsToCrawl := by
  unfold offerLinks
  generalize links.filter (fun l => l.isInternal && !l.isNofollow) = ls
  induction ls generalizing st with
  | nil => exact h
  | cons a t ih => exact ih _ (offerStep_toCrawl_mono pageU st a h)

/-! ## Invariant lemmas about the traversal loop -/

theorem crawlLoop_of_break (web : String → Option (List Anchor))
    (cd : Option Int) (mp : Nat) (l : List String) (st : CrawlState)
    (h : mp ≤ st.crawledUrls.length) : crawlLoop web cd mp l st = st := by
  cases l with
  | nil => rfl
  | cons u rest =>
    simp only [crawlLoop]
    rw [if_pos h]

theorem crawlLoop_append (web : String → Option (List Anchor))
    (cd : Option Int) (mp : Nat) (a b : List String) :
    ∀ st : CrawlState,
      crawlLoop web cd mp (a ++ b) st =
        crawlLoop web cd mp b (crawlLoop web cd mp a st) := by
  induction a with
  | nil => intro st; rfl
  | cons u rest ih =>
    intro st
    by_cases hb : mp ≤ st.crawledUrls.length
    · rw [crawlLoop_of_break _ _ _ _ _ hb, crawlLoop_of_break _ _ _ _ _ hb,
        crawlLoop_of_break _ _ _ _ _ hb]
    · simp only [List.cons_append, crawlLoop, if_neg hb]
      by_cases hmem : u ∈ st.crawledUrls
      · rw [if_pos hmem, if_pos hmem]
        simp only [List.append_eq]
        exact ih st
      · rw [if_neg hmem, if_neg hmem]
        cases hp : parseUrl u <;> cases ha : analyzePage web u <;>
          (simp only [List.append_eq]; exact ih _)

theorem crawlLoop_budget (web : String → Option (List Anchor))
    (cd : Option Int) (mp : Nat) (l : List String) :
    ∀ st : CrawlState, st.crawledUrls.length ≤ mp →
      (crawlLoop web cd mp l st).crawledUrls.length ≤ mp := by
  induction l with
  | nil => intro st h; exact h
  | cons u rest ih =>
    intro st h
    simp only [crawlLoop]
    by_cases hb : mp ≤ st.crawledUrls.length
    · rw [if_pos hb]; exact h
    · rw [if_neg hb]
      by_cases hmem : u ∈ st.crawledUrls
      · rw [if_pos hmem]; exact ih st h
      · rw [if_neg hmem]
        cases hp : parseUrl u with
        | none => exact ih st h
        | some pageU =>
          cases ha : analyzePage web u with
          | none => exact ih st h
          | some analysis =>
            apply ih
            have hc := (offerLinks_proj pageU analysis.links
              { st with results := st.results ++ [analysis],
                        crawledUrls := st.crawledUrls ++ [u] }).2.1
            simp only [hc, List.length_append, List.length_cons,
              List.length_nil]
            omega

theorem crawlLoop_results_url (web : String → Option (List Anchor))
    (cd : Option Int) (mp : Nat) (l : List String) :
    ∀ st : CrawlState,
      st.results.map (fun r => r.url) = st.crawledUrls →
      (crawlLoop web cd mp l st).results.map (fun r => r.url) =
        (crawlLoop web cd mp l st).crawledUrls := by
  induction l with
  | nil => intro st h; exact h
  | cons u rest ih =>
    intro st h
    simp only [crawlLoop]
    by_cases hb : mp ≤ st.crawledUrls.length
    · rw [if_pos hb]; exact h
    · rw [if_neg hb]
      by_cases hmem : u ∈ st.crawledUrls
      · rw [if_pos hmem]; exact ih st h
      · rw [if_neg hmem]
        cases hp : parseUrl u with
        | none => exact ih st h
        | some pageU =>
          cases ha : analyzePage web u with
          | none => exact ih st h
          | some analysis =>
            apply ih
            have hproj := offerLinks_proj pageU analysis.links
              { st with results := st.results ++ [analysis],
                        crawledUrls := st.crawledUrls ++ [u] }
            simp only [hproj.1, hproj.2.1, List.map_append, h,
              List.map_cons, List.map_nil, analyzePage_url ha]

theorem crawlLoop_crawled_nodup (web : String → Option (List Anchor))
    (cd : Option Int) (mp : Nat) (l : List String) :
    ∀ st : CrawlState, st.crawledUrls.Nodup →
      (crawlLoop web cd mp l st).crawledUrls.Nodup := by
  induction l with
  | nil => intro st h; exact h
  | cons u rest ih =>
    intro st h
    simp only [crawlLoop]
    by_cases hb : mp ≤ st.crawledUrls.length
    · rw [if_pos hb]; exact h
    · rw [if_neg hb]
      by_cases hmem : u ∈ st.crawledUrls
      · rw [if_pos hmem]; exact ih st h
      · rw [if_neg hmem]
        cases hp : parseUrl u with
        | none => exact ih st h
        | some pageU =>
          cases ha : analyzePage web u with
          | none => exact ih st h
          | some analysis =>
            apply ih
            have hc := (offerLinks_proj pageU analysis.links
              { st with results := st.results ++ [analysis],
                        crawledUrls := st.crawledUrls ++ [u] }).2.1
            simp only [hc]
            simpa [List.nodup_append] using ⟨h, hmem⟩

theorem crawlLoop_sleeps (web : String → Option (List Anchor))
    (cd : Option Int) (mp : Nat) (l : List String) :
    ∀ st : CrawlState,
      st.sleepsMs = st.results.map (fun _ => effectiveDelayMs cd) →
      (crawlLoop web cd mp l st).sleepsMs =
        (crawlLoop web cd mp l st).results.map (fun _ => effectiveDelayMs cd) := by
  induction l with
  | nil => intro st h; exact h
  | cons u rest ih =>
    intro st h
    simp only [crawlLoop]
    by_cases hb : mp ≤ st.crawledUrls.length
    · rw [if_pos hb]; exact h
    · rw [if_neg hb]
      by_cases hmem : u ∈ st.crawledUrls
      · rw [if_pos hmem]; exact ih st h
      · rw [if_neg hmem]
        cases hp : parseUrl u with
        | none => exact ih st h
        | some pageU =>
          cases ha : analyzePage web u with
          | none => exact ih st h
          | some analysis =>
            apply ih
            have hproj := offerLinks_proj pageU analysis.links
              { st with results := st.results ++ [analysis],
                        crawledUrls := st.crawledUrls ++ [u] }
            rw [hproj.2.2, hproj.1]
            simp only [h, List.map_append, List.map_cons, List.map_nil]

theorem crawlLoop_toCrawl_mono (web : String → Option (List Anchor))
    (cd : Option Int) (mp : Nat) (l : List String) :
    ∀ st : CrawlState, ∀ x ∈ st.urlsToCrawl,
      x ∈ (crawlLoop web cd mp l st).urlsToCrawl := by
  induction l with
  | nil => intro st x h; exact h
  | cons u rest ih =>
    intro st x h
    simp only [crawlLoop]
    by_cases hb : mp ≤ st.crawledUrls.length
    · rw [if_pos hb]; exact h
    · rw [if_neg hb]
      by_cases hmem : u ∈ st.crawledUrls
      · rw [if_pos hmem]; exact ih st x h
      · rw [if_neg hmem]
        cases hp : parseUrl u with
        | none => exact ih st x h
        | some pageU =>
          cases ha : analyzePage web u with
          | none => exact ih st x h
          | some analysis =>
            apply ih
            exact offerLinks_toCrawl_mono pageU analysis.links
              { st with results := st.results ++ [analysis],
                        crawledUrls := st.crawledUrls ++ [u] } h

theorem crawlLoop_visited_subset (web : String → Option (List Anchor))
    (cd : Option Int) (mp : Nat) (l : List String) :
    ∀ st : CrawlState,
      (∀ x ∈ st.crawledUrls, x ∈ st.urlsToCrawl) →
      (∀ x ∈ l, x ∈ st.urlsToCrawl) →
      ∀ x ∈ (crawlLoop web cd mp l st).crawledUrls,
        x ∈ (crawlLoop web cd mp l st).urlsToCrawl := by
  induction l with
  | nil => intro st hinv _ x hx; exact hinv x hx
  | cons u rest ih =>
    intro st hinv hl
    simp only [crawlLoop]
    by_cases hb : mp ≤ st.crawledUrls.length
    · rw [if_pos hb]; exact hinv
    · rw [if_neg hb]
      by_cases hmem : u ∈ st.crawledUrls
      · rw [if_pos hmem]
        exact ih st hinv (fun x hx => hl x (List.mem_cons_of_mem _ hx))
      · rw [if_neg hmem]
        cases hp : parseUrl u with
        | none => exact ih st hinv (fun x hx => hl x (List.mem_cons_of_mem _ hx))
        | some pageU =>
          cases ha : analyzePage web u with
          | none => exact ih st hinv (fun x hx => hl x (List.mem_cons_of_mem _ hx))
          | some analysis =>
            apply ih
            · intro x hx
              have hproj := offerLinks_proj pageU analysis.links
                { st with results := st.results ++ [analysis],
                          crawledUrls := st.crawledUrls ++ [u] }
              rw [hproj.2.1] at hx
              apply offerLinks_toCrawl_mono
              simp only [List.mem_append, List.mem_cons, List.not_mem_nil,
                or_false] at hx
              rcases hx with hx | hx
              · exact hinv x hx
              · subst hx; exact hl x (List.mem_cons_self _ _)
            · intro x hx
              apply offerLinks_toCrawl_mono
              exact hl x (List.mem_cons_of_mem _ hx)

/-- Characterization of one full pass over the snapshot: starting from a
state none of whose visited URLs recur in the (duplicate-free) snapshot, the
visited list is extended by exactly the snapshot URLs whose fetch succeeds,
in snapshot order, truncated at the remaining budget. -/
theorem crawlLoop_characterize (web : String → Option (List Anchor))
    (cd : Option Int) (mp : Nat) (l : List String) :
    ∀ st : CrawlState, l.Nodup → (∀ u ∈ l, u ∉ st.crawledUrls) →
      (crawlLoop web cd mp l st).crawledUrls =
        st.crawledUrls ++
          ((l.filter fun v => (analyzePage web v).isSome).take
            (mp - st.crawledUrls.length)) := by
  induction l with
  | nil => intro st _ _; simp [crawlLoop]
  | cons u rest ih =>
    intro st hnd hfresh
    simp only [crawlLoop]
    by_cases hb : mp ≤ st.crawledUrls.length
    · rw [if_pos hb]
      rw [Nat.sub_eq_zero_of_le hb]
      simp
    · rw [if_neg hb]
      have hmem : u ∉ st.crawledUrls := hfresh u (List.mem_cons_self _ _)
      rw [if_neg hmem]
      have hndr : rest.Nodup := hnd.of_cons
      have hne : u ∉ rest := (List.nodup_cons.mp hnd).1
      cases hp : parseUrl u with
      | none =>
        have ha : analyzePage web u = none := analyzePage_none_of_parseUrl_none hp
        rw [ih st hndr (fun v hv => hfresh v (List.mem_cons_of_mem _ hv))]
        rw [List.filter_cons_of_neg (by simp [ha])]
      | some pageU =>
        cases ha : analyzePage web u with
        | none =>
          rw [ih st hndr (fun v hv => hfresh v (List.mem_cons_of_mem _ hv))]
          rw [List.filter_cons_of_neg (by simp [ha])]
        | some analysis =>
          have hproj := offerLinks_proj pageU analysis.links
            { st with results := st.results ++ [analysis],
                      crawledUrls := st.crawledUrls ++ [u] }
          rw [ih _ hndr ?fresh]
          case fresh =>
            intro v hv
            rw [hproj.2.1]
            simp only [List.mem_append, List.mem_cons, List.not_mem_nil,
              or_false]
            push_neg
            exact ⟨hfresh v (List.mem_cons_of_mem _ hv),
              fun he => hne (he ▸ hv)⟩
          rw [hproj.2.1]
          simp only [List.length_append, List.length_cons, List.length_nil]
          rw [List.filter_cons_of_pos (by simp [ha])]
          have hlt : st.crawledUrls.length < mp := Nat.lt_of_not_le hb
          have harith : mp - st.crawledUrls.length =
              (mp - (st.crawledUrls.length + 1)) + 1 := by omega
          rw [harith, List.take_succ_cons, List.append_assoc,
            List.singleton_append]

/-! ## Lemmas about a finished crawl -/

theorem crawlSite_inv {web : String → Option (List Anchor)}
    {robotsBody : Option String} {smw : String → Option SitemapDoc}
    {fuel : Nat} {cfg : CrawlConfig} {out : CrawlOutcome}
    (h : crawlSite web robotsBody smw fuel cfg = some out) :
    ∃ seedU, parseUrl cfg.url = some seedU ∧
      out = crawlFromRobots web (effectiveRobots cfg.respectRobotsTxt robotsBody)
        smw fuel cfg seedU := by
  unfold crawlSite at h
  cases hp : parseUrl cfg.url with
  | none => rw [hp] at h; cases h
  | some seedU =>
    rw [hp] at h
    exact ⟨seedU, rfl, (Option.some_injective _ h).symm⟩

theorem crawlFromRobots_crawled (web : String → Option (List Anchor))
    (robots : RobotsTxt) (smw : String → Option SitemapDoc) (fuel : Nat)
    (cfg : CrawlConfig) (seedU : ParsedUrl) :
    (crawlFromRobots web robots smw fuel cfg seedU).crawledUrls =
      ((seededFrontier robots smw fuel cfg (urlOrigin seedU)).filter
        fun v => (analyzePage web v).isSome).take cfg.maxPages := by
  unfold crawlFromRobots
  have h := crawlLoop_characterize web robots.crawlDelay cfg.maxPages
    (seededFrontier robots smw fuel cfg (urlOrigin seedU))
    ⟨[], seededFrontier robots smw fuel cfg (urlOrigin seedU), [], []⟩
    (seededFrontier_nodup _ _ _ _ _) (by intro u _; simp)
  simpa using h

theorem crawlFromRobots_results_url (web : String → Option (List Anchor))
    (robots : RobotsTxt) (smw : String → Option SitemapDoc) (fuel : Nat)
    (cfg : CrawlConfig) (seedU : ParsedUrl) :
    (crawlFromRobots web robots smw fuel cfg seedU).results.map
        (fun r => r.url) =
      (crawlFromRobots web robots smw fuel cfg seedU).crawledUrls := by
  unfold crawlFromRobots
  exact crawlLoop_results_url web robots.crawlDelay cfg.maxPages
    (seededFrontier robots smw fuel cfg (urlOrigin seedU))
    ⟨[], seededFrontier robots smw fuel cfg (urlOrigin seedU), [], []⟩ rfl

theorem crawlFromRobots_sleeps (web : String → Option (List Anchor))
    (robots : RobotsTxt) (smw : String → Option SitemapDoc) (fuel : Nat)
    (cfg : CrawlConfig) (seedU : ParsedUrl) :
    (crawlFromRobots web robots smw fuel cfg seedU).sleepsMs =
      (crawlFromRobots web robots smw fuel cfg seedU).results.map
        (fun _ => effectiveDelayMs robots.crawlDelay) := by
  unfold crawlFromRobots
  exact crawlLoop_sleeps web robots.crawlDelay cfg.maxPages
    (seededFrontier robots smw fuel cfg (urlOrigin seedU))
    ⟨[], seededFrontier robots smw fuel cfg (urlOrigin seedU), [], []⟩ rfl

theorem crawlFromRobots_budget (web : String → Option (List Anchor))
    (robots : RobotsTxt) (smw : String → Option SitemapDoc) (fuel : Nat)
    (cfg : CrawlConfig) (seedU : ParsedUrl) :
    (crawlFromRobots web robots smw fuel cfg seedU).crawledUrls.length ≤
      cfg.maxPages := by
  unfold crawlFromRobots
  exact crawlLoop_budget web robots.crawlDelay cfg.maxPages
    (seededFrontier robots smw fuel cfg (urlOrigin seedU))
    ⟨[], seededFrontier robots smw fuel cfg (urlOrigin seedU), [], []⟩
    (Nat.zero_le _)

theorem crawlFromRobots_nodup (web : String → Option (List Anchor))
    (robots : RobotsTxt) (smw : String → Option SitemapDoc) (fuel : Nat)
    (cfg : CrawlConfig) (seedU : ParsedUrl) :
    (crawlFromRobots web robots smw fuel cfg seedU).crawledUrls.Nodup := by
  unfold crawlFromRobots
  exact crawlLoop_crawled_nodup web robots.crawlDelay cfg.maxPages
    (seededFrontier robots smw fuel cfg (urlOrigin seedU))
    ⟨[], seededFrontier robots smw fuel cfg (urlOrigin seedU), [], []⟩
    List.nodup_nil

/-! ## Lemmas about the robots.txt line fold -/

theorem parseRobotsLine_delay_of_line (st : RobotsTxt) (l : String)
    (h : isCrawlDelayLine l = true) :
    (parseRobotsLine st l).crawlDelay = crawlDelayOfLine l := by
  have h3 := h
  simp only [isCrawlDelayLine, Bool.and_eq_true, Bool.not_eq_true'] at h3
  unfold parseRobotsLine
  rw [if_neg (by simp [h3.1.1]), if_neg (by simp [h3.1.2]), if_pos h3.2]

theorem parseRobotsLine_delay_of_other (st : RobotsTxt) (m : String)
    (h : isCrawlDelayLine m = false) :
    (parseRobotsLine st m).crawlDelay = st.crawlDelay := by
  unfold parseRobotsLine
  by_cases h1 : isSitemapLine m
  · rw [if_pos h1]
  · rw [if_neg h1]
    by_cases h2 : isDisallowLine m
    · rw [if_pos h2]
    · rw [if_neg h2]
      by_cases h4 : jsStartsWith (jsToLower (jsTrim m)) "crawl-delay:" = true
      · exfalso
        have : isCrawlDelayLine m = true := by
          simp only [isCrawlDelayLine, Bool.and_eq_true, Bool.not_eq_true']
          exact ⟨⟨Bool.eq_false_iff.mpr h1, Bool.eq_false_iff.mpr h2⟩, h4⟩
        rw [this] at h; cases h
      · rw [if_neg h4]

theorem foldl_robots_delay_const (post : List String) :
    ∀ st : RobotsTxt, (∀ m ∈ post, isCrawlDelayLine m = false) →
      (post.foldl parseRobotsLine st).crawlDelay = st.crawlDelay := by
  induction post with
  | nil => intro st _; rfl
  | cons m t ih =>
    intro st h
    have := ih (parseRobotsLine st m) (fun x hx => h x (List.mem_cons_of_mem _ hx))
    rw [List.foldl_cons, this,
      parseRobotsLine_delay_of_other st m (h m (List.mem_cons_self _ _))]

/-- The last line reaching the `crawl-delay:` branch alone determines the
parsed crawl delay. -/
theorem fetchRobotsTxt_delay_last {content : String} {pre : List String}
    {l : String} {post : List String}
    (hsplit : jsSplitNewline content = pre ++ l :: post)
    (hl : isCrawlDelayLine l = true)
    (hpost : ∀ m ∈ post, isCrawlDelayLine m = false) :
    (fetchRobotsTxt (some content)).crawlDelay = crawlDelayOfLine l := by
  show (List.foldl parseRobotsLine emptyRobots (jsSplitNewline content)).crawlDelay = _
  rw [hsplit, List.foldl_append, List.foldl_cons,
    foldl_robots_delay_const post _ hpost,
    parseRobotsLine_delay_of_line _ _ hl]

/-! ## Further helper lemmas -/

theorem jsStartsWith_slash_not_http (s : String)
    (h : jsStartsWith s "/" = true) : jsStartsWith s "http" = false := by
  unfold jsStartsWith at h ⊢
  cases hd : s.data with
  | nil => rw [hd] at h; cases h
  | cons c t =>
    rw [hd] at h
    simp only [show ("/" : String).data = ['/'] from rfl, List.isPrefixOf,
      Bool.and_eq_true, beq_iff_eq] at h
    simp only [show ("http" : String).data = ['h', 't', 't', 'p'] from rfl,
      List.isPrefixOf]
    rw [← h.1]
    simp

theorem mem_foldl_append (f : String → List String) :
    ∀ (ls : List String) (init : List String) (x : String),
      x ∈ ls.foldl (fun acc c => acc ++ f c) init ↔
        x ∈ init ∨ ∃ c ∈ ls, x ∈ f c := by
  intro ls
  induction ls with
  | nil => intro init x; simp
  | cons a t ih =>
    intro init x
    rw [List.foldl_cons, ih]
    simp only [List.mem_append, List.mem_cons]
    constructor
    · rintro ((hx | hx) | ⟨c, hc, hx⟩)
      · exact Or.inl hx
      · exact Or.inr ⟨a, Or.inl rfl, hx⟩
      · exact Or.inr ⟨c, Or.inr hc, hx⟩
    · rintro (hx | ⟨c, (rfl | hc), hx⟩)
      · exact Or.inl (Or.inl hx)
      · exact Or.inl (Or.inr hx)
      · exact Or.inr ⟨c, hc, hx⟩

/-! ## Concrete crawl fixtures used by the claim-level theorems -/

/-- A two-page site: the seed page links internally to `/b`, and `/b` is
fetchable. -/
def exWebSeedLink : String → Option (List Anchor) := fun u =>
  if u = "https://e.com/" then some [⟨"/b", "b", ""⟩]
  else if u = "https://e.com/b" then some []
  else none

/-- Sitemap oracle with no reachable sitemaps. -/
def noSitemapWeb : String → Option SitemapDoc := fun _ => none

/-- Crawl configuration: seed `https://e.com/`, budget 10, no sitemap, no
robots. -/
def exCfgNoSitemap : CrawlConfig := ⟨"https://e.com/", 10, false, false⟩

/-- The outcome of crawling `exWebSeedLink` under `exCfgNoSitemap`. -/
def exOutSeedLink : CrawlOutcome :=
  ⟨emptyRobots,
    [⟨"https://e.com/", [⟨"/b", "b", true, false⟩]⟩],
    ["https://e.com/", "https://e.com/b"],
    ["https://e.com/"], [1000]⟩

/-- A sitemap listing three pages of `e.com`. -/
def exSitemapWebABC : String → Option SitemapDoc := fun u =>
  if u = "https://e.com/sitemap.xml" then
    some ⟨[], ["https://e.com/a", "https://e.com/b", "https://e.com/c"], 0⟩
  else none

/-- All four pages fetch successfully, with no links. -/
def exWebPlain : String → Option (List Anchor) := fun u =>
  if u = "https://e.com/" ∨ u = "https://e.com/a" ∨ u = "https://e.com/b" ∨
      u = "https://e.com/c" then some []
  else none

/-- Page `a` fails to fetch; the other three succeed. -/
def exWebFailA : String → Option (List Anchor) := fun u =>
  if u = "https://e.com/" then some []
  else if u = "https://e.com/a" then none
  else if u = "https://e.com/b" ∨ u = "https://e.com/c" then some []
  else none

/-- Sitemap-following configuration with budget 10. -/
def exCfgSitemap : CrawlConfig := ⟨"https://e.com/", 10, true, false⟩

/-- Sitemap-following configuration with budget 2. -/
def exCfgSitemapMp2 : CrawlConfig := ⟨"https://e.com/", 2, true, false⟩

/-- The frontier seeded from the seed URL and `exSitemapWebABC`. -/
def exSeeded : List String :=
  seededFrontier emptyRobots exSitemapWebABC 5 exCfgSitemap "https://e.com"

/-- The outcome of the `exWebFailA` crawl: page `a` fails, the rest
succeed. -/
def exOutFailA : CrawlOutcome :=
  ⟨emptyRobots,
    [⟨"https://e.com/", []⟩, ⟨"https://e.com/b", []⟩, ⟨"https://e.com/c", []⟩],
    ["https://e.com/", "https://e.com/a", "https://e.com/b", "https://e.com/c"],
    ["https://e.com/", "https://e.com/b", "https://e.com/c"],
    [1000, 1000, 1000]⟩

/-- The outcome of the all-success crawl truncated at budget 2. -/
def exOutMp2 : CrawlOutcome :=
  ⟨emptyRobots,
    [⟨"https://e.com/", []⟩, ⟨"https://e.com/a", []⟩],
    ["https://e.com/", "https://e.com/a", "https://e.com/b", "https://e.com/c"],
    ["https://e.com/", "https://e.com/a"],
    [1000, 1000]⟩

/-! ## Claim C1 -/

/-- Claim C1 (code bug witnessed): the claim states that `crawlSite` stops
only when the budget is hit or every URL added to the frontier — including
internal links offered while processing pages — has been dequeued and
processed.  The code iterates `Array.from(urlsToCrawl)`, a snapshot taken
when the loop starts, so URLs added by the link-discovery block are never
dequeued: in this evaluated crawl, the fetchable internal link
`https://e.com/b` sits in the final frontier, is never visited, and the
crawl returns with 1 visited page against a budget of 10. -/
theorem claim1_snapshot_never_drains_frontier :
    crawlSite exWebSeedLink none noSitemapWeb 5 exCfgNoSitemap =
      some exOutSeedLink ∧
    "https://e.com/b" ∈ exOutSeedLink.urlsToCrawl ∧
    "https://e.com/b" ∉ exOutSeedLink.crawledUrls ∧
    (analyzePage exWebSeedLink "https://e.com/b").isSome = true ∧
    exOutSeedLink.crawledUrls.length = 1 ∧
    exCfgNoSitemap.maxPages = 10 := by
  exact ⟨by decide, by decide, by decide, by decide, by decide, by decide⟩

/-! ## Claim C3 -/

/-- Claim C3 counterexample: mid-traversal (after the first of four
snapshot URLs has been processed, with the remaining three still to come —
the full loop factors through this state), the seed URL belongs to BOTH
`urlsToCrawl` and `crawledUrls`: the code never removes a dequeued URL from
`urlsToCrawl`, so the claimed disjointness `pending ∩ visited = ∅` (with
pending read as `urlsToCrawl`, as the claim does) fails. -/
theorem claim3_cx_pending_visited_overlap :
    "https://e.com/" ∈
      (crawlLoop exWebPlain none 10 (exSeeded.take 1)
        ⟨[], exSeeded, [], []⟩).crawledUrls ∧
    "https://e.com/" ∈
      (crawlLoop exWebPlain none 10 (exSeeded.take 1)
        ⟨[], exSeeded, [], []⟩).urlsToCrawl ∧
    exSeeded.drop 1 ≠ [] ∧
    crawlLoop exWebPlain none 10 exSeeded ⟨[], exSeeded, [], []⟩ =
      crawlLoop exWebPlain none 10 (exSeeded.drop 1)
        (crawlLoop exWebPlain none 10 (exSeeded.take 1)
          ⟨[], exSeeded, [], []⟩) := by
  exact ⟨by decide, by decide, by decide, by decide⟩

/-- Claim C3 (amended): `urlsToCrawl` is the set of URLs *seen*, not a
draining pending set — dequeued URLs stay in it, so `urlsToCrawl ∩
crawledUrls` is non-empty as soon as one page is visited.  What the loop
does maintain at every point of the traversal (after any prefix of the
snapshot has been processed) is containment: every visited URL is in
`urlsToCrawl`, i.e. the effective pending set `urlsToCrawl \ crawledUrls`
is disjoint from `crawledUrls`; and a URL is added to `urlsToCrawl` during
the loop only when it is not in `crawledUrls` (and set insertion ignores
URLs already present). -/
theorem claim3_visited_subset_frontier (web : String → Option (List Anchor))
    (cd : Option Int) (mp : Nat) (seeded : List String) (k : Nat) :
    ∀ x ∈ (crawlLoop web cd mp (seeded.take k)
        ⟨[], seeded, [], []⟩).crawledUrls,
      x ∈ (crawlLoop web cd mp (seeded.take k)
        ⟨[], seeded, [], []⟩).urlsToCrawl := by
  apply crawlLoop_visited_subset
  · intro x hx
    exact absurd hx (List.not_mem_nil x)
  · intro x hx
    exact List.take_subset k seeded hx

/-- Witness for the amended C3 at a concrete mid-traversal state. -/
theorem claim3_witness :
    "https://e.com/" ∈
      (crawlLoop exWebPlain none 10 (exSeeded.take 1)
        ⟨[], exSeeded, [], []⟩).urlsToCrawl :=
  claim3_visited_subset_frontier exWebPlain none 10 exSeeded 1
    "https://e.com/" (by decide)

/-! ## Claim C2 -/

/-- Claim C2: for every finished crawl, at most `maxPages` records are
returned and their URLs are pairwise distinct; and when the seeded frontier
carries more URLs than `maxPages` and every seeded page fetches
successfully, exactly `maxPages` records are returned, in the insertion
order of the seeded URLs. -/
theorem claim2_budget_and_distinct (web : String → Option (List Anchor))
    (rb : Option String) (smw : String → Option SitemapDoc) (fuel : Nat)
    (cfg : CrawlConfig) (out : CrawlOutcome)
    (h : crawlSite web rb smw fuel cfg = some out) :
    (out.results.length ≤ cfg.maxPages ∧
      (out.results.map fun r => r.url).Nodup) ∧
    (∀ seedU, parseUrl cfg.url = some seedU →
      (∀ su ∈ seededFrontier (effectiveRobots cfg.respectRobotsTxt rb) smw
          fuel cfg (urlOrigin seedU), (analyzePage web su).isSome = true) →
      cfg.maxPages < (seededFrontier (effectiveRobots cfg.respectRobotsTxt rb)
        smw fuel cfg (urlOrigin seedU)).length →
      out.results.map (fun r => r.url) =
        (seededFrontier (effectiveRobots cfg.respectRobotsTxt rb) smw fuel cfg
          (urlOrigin seedU)).take cfg.maxPages ∧
      out.results.length = cfg.maxPages) := by
  obtain ⟨seedU, hs, hout⟩ := crawlSite_inv h
  subst hout
  have hr := crawlFromRobots_results_url web
    (effectiveRobots cfg.respectRobotsTxt rb) smw fuel cfg seedU
  constructor
  · constructor
    · have hb := crawlFromRobots_budget web
        (effectiveRobots cfg.respectRobotsTxt rb) smw fuel cfg seedU
      calc (crawlFromRobots web (effectiveRobots cfg.respectRobotsTxt rb) smw
              fuel cfg seedU).results.length
          = ((crawlFromRobots web (effectiveRobots cfg.respectRobotsTxt rb)
              smw fuel cfg seedU).results.map fun r => r.url).length := by
            rw [List.length_map]
        _ = (crawlFromRobots web (effectiveRobots cfg.respectRobotsTxt rb) smw
              fuel cfg seedU).crawledUrls.length := by rw [hr]
        _ ≤ cfg.maxPages := hb
    · rw [hr]
      exact crawlFromRobots_nodup web
        (effectiveRobots cfg.respectRobotsTxt rb) smw fuel cfg seedU
  · intro seedU' hs' hall hlen
    rw [hs] at hs'
    obtain rfl : seedU = seedU' := by injection hs'
    have hc := crawlFromRobots_crawled web
      (effectiveRobots cfg.respectRobotsTxt rb) smw fuel cfg seedU
    have hfilter :
        (seededFrontier (effectiveRobots cfg.respectRobotsTxt rb) smw fuel cfg
          (urlOrigin seedU)).filter (fun v => (analyzePage web v).isSome) =
        seededFrontier (effectiveRobots cfg.respectRobotsTxt rb) smw fuel cfg
          (urlOrigin seedU) :=
      List.filter_eq_self.mpr hall
    rw [hfilter] at hc
    refine ⟨hr.trans hc, ?_⟩
    have : (crawlFromRobots web (effectiveRobots cfg.respectRobotsTxt rb) smw
        fuel cfg seedU).results.length =
        ((crawlFromRobots web (effectiveRobots cfg.respectRobotsTxt rb) smw
          fuel cfg seedU).results.map fun r => r.url).length := by
      rw [List.length_map]
    rw [this, hr.trans hc, List.length_take]
    exact Nat.min_eq_left (Nat.le_of_lt hlen)

/-- Witness for C2: four seeded URLs, budget 2, all fetches succeed — the
two records returned are the first two seeded URLs in order. -/
theorem claim2_witness :
    (exOutMp2.results.length ≤ exCfgSitemapMp2.maxPages ∧
      (exOutMp2.results.map fun r => r.url).Nodup) ∧
    (exOutMp2.results.map (fun r => r.url) =
      ["https://e.com/", "https://e.com/a"] ∧
     exOutMp2.results.length = 2) := by
  have h := claim2_budget_and_distinct exWebPlain none exSitemapWebABC 5
    exCfgSitemapMp2 exOutMp2 (by decide)
  refine ⟨h.1, ?_, by decide⟩
  have h2 := (h.2 ⟨"https", "e.com", "/"⟩ (by decide) (by decide) (by decide)).1
  rw [h2]
  decide

/-! ## Claim C4 -/

/-- Claim C4 counterexample: in the evaluated crawl, `https://e.com/a` is
dequeued (it is the 2nd of 4 snapshot URLs, and the budget of 10 is never
reached) and its fetch fails — yet it is NOT in `crawledUrls` afterwards:
the `crawledUrls.add(pageUrl)` sits inside the `try` after `analyzePage`,
so a throwing URL is never marked visited, contrary to the claim. -/
theorem claim4_cx_not_marked_visited :
    crawlSite exWebFailA none exSitemapWebABC 5 exCfgSitemap =
      some exOutFailA ∧
    analyzePage exWebFailA "https://e.com/a" = none ∧
    "https://e.com/a" ∈ exSeeded ∧
    "https://e.com/a" ∉ exOutFailA.crawledUrls ∧
    exOutFailA.crawledUrls.length = 3 ∧
    exCfgSitemap.maxPages = 10 := by
  exact ⟨by decide, by decide, by decide, by decide, by decide, by decide⟩

/-- Claim C4 (amended): a fetch/extraction failure is recovered locally —
the failed URL is excluded from the returned records and from
`crawledUrls` (it is NOT marked visited, contrary to the original claim;
no re-attempt can happen anyway because the loop iterates a duplicate-free
snapshot exactly once), and the returned records are exactly the
successfully fetched seeded URLs in their original relative order,
truncated at the budget. -/
theorem claim4_failure_isolated (web : String → Option (List Anchor))
    (rb : Option String) (smw : String → Option SitemapDoc) (fuel : Nat)
    (cfg : CrawlConfig) (out : CrawlOutcome) (u : String) (seedU : ParsedUrl)
    (h : crawlSite web rb smw fuel cfg = some out)
    (hseed : parseUrl cfg.url = some seedU)
    (_hu : u ∈ seededFrontier (effectiveRobots cfg.respectRobotsTxt rb) smw
      fuel cfg (urlOrigin seedU))
    (hfail : analyzePage web u = none) :
    u ∉ out.crawledUrls ∧
    u ∉ out.results.map (fun r => r.url) ∧
    out.results.map (fun r => r.url) =
      ((seededFrontier (effectiveRobots cfg.respectRobotsTxt rb) smw fuel cfg
        (urlOrigin seedU)).filter
          (fun v => (analyzePage web v).isSome)).take cfg.maxPages := by
  obtain ⟨seedU', hs, hout⟩ := crawlSite_inv h
  rw [hseed] at hs
  obtain rfl : seedU = seedU' := Option.some.inj hs
  subst hout
  have hc := crawlFromRobots_crawled web
    (effectiveRobots cfg.respectRobotsTxt rb) smw fuel cfg seedU
  have hr := crawlFromRobots_results_url web
    (effectiveRobots cfg.respectRobotsTxt rb) smw fuel cfg seedU
  have hnotmem : u ∉ ((seededFrontier (effectiveRobots cfg.respectRobotsTxt rb)
      smw fuel cfg (urlOrigin seedU)).filter
        (fun v => (analyzePage web v).isSome)).take cfg.maxPages := by
    intro hmem
    have h1 := List.take_subset _ _ hmem
    have h2 := (List.mem_filter.mp h1).2
    rw [hfail] at h2
    cases h2
  refine ⟨?_, ?_, hr.trans hc⟩
  · rw [hc]; exact hnotmem
  · rw [hr.trans hc]; exact hnotmem

/-- Witness for the amended C4 in the `exWebFailA` crawl. -/
theorem claim4_witness :
    "https://e.com/a" ∉ exOutFailA.crawledUrls ∧
    "https://e.com/a" ∉ exOutFailA.results.map (fun r => r.url) ∧
    exOutFailA.results.map (fun r => r.url) =
      ((seededFrontier (effectiveRobots exCfgSitemap.respectRobotsTxt none)
        exSitemapWebABC 5 exCfgSitemap
        (urlOrigin ⟨"https", "e.com", "/"⟩)).filter
          (fun v => (analyzePage exWebFailA v).isSome)).take
            exCfgSitemap.maxPages :=
  claim4_failure_isolated exWebFailA none exSitemapWebABC 5 exCfgSitemap
    exOutFailA "https://e.com/a" ⟨"https", "e.com", "/"⟩ (by decide)
    (by decide) (by decide) (by decide)

/-! ## Claim C5 -/

/-- Claim C5 counterexample: in the evaluated crawl, four URLs are dequeued
and processed (one of them failing), but only three politeness sleeps
occur: the sleep sits inside the `try`, so a URL whose fetch throws skips
it, contrary to the claim that exactly one sleep follows every processed
URL including failed ones. -/
theorem claim5_cx_missing_sleep :
    crawlSite exWebFailA none exSitemapWebABC 5 exCfgSitemap =
      some exOutFailA ∧
    exSeeded.length = 4 ∧
    analyzePage exWebFailA "https://e.com/a" = none ∧
    exOutFailA.sleepsMs = [1000, 1000, 1000] ∧
    exOutFailA.sleepsMs.length = 3 := by
  exact ⟨by decide, by decide, by decide, by decide, by decide⟩

/-- Claim C5 (amended): exactly one politeness sleep — the robots
crawl-delay scaled to milliseconds when truthy, else the fixed 1000 ms
default — occurs per SUCCESSFULLY processed URL (one sleep per returned
record); a URL whose fetch or extraction throws produces no sleep. -/
theorem claim5_sleep_only_after_success (web : String → Option (List Anchor))
    (rb : Option String) (smw : String → Option SitemapDoc) (fuel : Nat)
    (cfg : CrawlConfig) (out : CrawlOutcome)
    (h : crawlSite web rb smw fuel cfg = some out) :
    out.sleepsMs =
      out.results.map (fun _ => effectiveDelayMs out.robots.crawlDelay) := by
  obtain ⟨seedU, hs, hout⟩ := crawlSite_inv h
  subst hout
  exact crawlFromRobots_sleeps web (effectiveRobots cfg.respectRobotsTxt rb)
    smw fuel cfg seedU

/-- Witness for the amended C5 in the `exWebFailA` crawl. -/
theorem claim5_witness :
    exOutFailA.sleepsMs =
      exOutFailA.results.map
        (fun _ => effectiveDelayMs exOutFailA.robots.crawlDelay) :=
  claim5_sleep_only_after_success exWebFailA none exSitemapWebABC 5
    exCfgSitemap exOutFailA (by decide)

/-! ## Claim C6 -/

/-- A mixed sitemap document: one sitemap-index entry (`child.xml`) and one
urlset entry (`page1`), where `page1` happens to serve a urlset document of
its own. -/
def exSmWebMixed : String → Option SitemapDoc := fun u =>
  if u = "https://s.com/index.xml" then
    some ⟨["https://s.com/child.xml"], ["https://s.com/page1"], 1⟩
  else if u = "https://s.com/child.xml" then
    some ⟨[], ["https://s.com/p2"], 0⟩
  else if u = "https://s.com/page1" then
    some ⟨[], ["https://s.com/p3"], 0⟩
  else none

/-- Claim C6 counterexample: for the mixed document `index.xml`, the claim
says the resolver recursively resolves exactly the child sitemap URLs
(yielding `["https://s.com/p2"]`) and discards the urlset entry `page1`,
never resolving it as a sitemap.  The code instead pushes both extraction
passes into ONE array and, once any `sitemap` element is present,
recursively fetches EVERY entry of that array — so `page1` IS resolved as
a sitemap and contributes `p3` to the result. -/
theorem claim6_cx_urlset_entry_recursed :
    exSmWebMixed "https://s.com/index.xml" =
      some ⟨["https://s.com/child.xml"], ["https://s.com/page1"], 1⟩ ∧
    fetchSitemap exSmWebMixed 3 "https://s.com/index.xml" =
      ["https://s.com/p2", "https://s.com/p3"] ∧
    fetchSitemap exSmWebMixed 2 "https://s.com/child.xml" =
      ["https://s.com/p2"] ∧
    fetchSitemap exSmWebMixed 3 "https://s.com/index.xml" ≠
      ["https://s.com/p2"] := by
  exact ⟨by decide, by decide, by decide, by decide⟩

/-- Claim C6 (amended): when the fetched document contains at least one
`sitemap` element, `fetchSitemap` treats it as an index and recursively
resolves EVERY collected `loc` entry — the sitemap-index children first,
then any urlset entries found in the same document — concatenating the
recursive results; no collected entry is returned literally as a page
(every returned URL comes from some child's recursive resolution). -/
theorem claim6_index_recurses_all_entries (web : String → Option SitemapDoc)
    (fuel : Nat) (u : String) (doc : SitemapDoc)
    (hdoc : web u = some doc) (hidx : 0 < doc.numSitemapElems) :
    fetchSitemap web (fuel + 1) u =
      (doc.sitemapLocs ++ doc.urlLocs).foldl
        (fun acc c => acc ++ fetchSitemap web fuel c) [] ∧
    ∀ x ∈ fetchSitemap web (fuel + 1) u,
      ∃ c ∈ doc.sitemapLocs ++ doc.urlLocs, x ∈ fetchSitemap web fuel c := by
  have heq : fetchSitemap web (fuel + 1) u =
      (doc.sitemapLocs ++ doc.urlLocs).foldl
        (fun acc c => acc ++ fetchSitemap web fuel c) [] := by
    simp only [fetchSitemap, hdoc]
    rw [if_pos hidx]
  refine ⟨heq, ?_⟩
  intro x hx
  rw [heq] at hx
  rcases (mem_foldl_append (fetchSitemap web fuel) _ [] x).mp hx with
    h | h
  · exact absurd h (List.not_mem_nil x)
  · exact h

/-- Witness for the amended C6 at the mixed document. -/
theorem claim6_witness :
    fetchSitemap exSmWebMixed 3 "https://s.com/index.xml" =
      (["https://s.com/child.xml"] ++ ["https://s.com/page1"]).foldl
        (fun acc c => acc ++ fetchSitemap exSmWebMixed 2 c) [] ∧
    ∃ c ∈ ["https://s.com/child.xml"] ++ ["https://s.com/page1"],
      "https://s.com/p3" ∈ fetchSitemap exSmWebMixed 2 c := by
  have h := claim6_index_recurses_all_entries exSmWebMixed 2
    "https://s.com/index.xml"
    ⟨["https://s.com/child.xml"], ["https://s.com/page1"], 1⟩
    (by decide) (by decide)
  exact ⟨h.1, h.2 "https://s.com/p3" (by decide)⟩

/-! ## Claim C7 -/

/-- Claim C7 counterexample: after a valid `Crawl-delay: 5` line, a
non-numeric `Crawl-delay: abc` line does NOT leave the previous value in
place — `parseInt('abc') || null` overwrites `crawlDelay` with `null`, so
the parsed delay is `none`, not the `some 5` the claim requires. -/
theorem claim7_cx_invalid_line_resets :
    (fetchRobotsTxt (some "Crawl-delay: 5\nCrawl-delay: abc")).crawlDelay =
      none ∧
    jsParseInt "5" = some 5 ∧
    jsParseInt "abc" = none ∧
    (fetchRobotsTxt (some "Crawl-delay: 5\nCrawl-delay: abc")).crawlDelay ≠
      some 5 := by
  exact ⟨by decide, by decide, by decide, by decide⟩

/-- Claim C7 (amended): every line reaching the `crawl-delay:` branch
OVERWRITES the stored value with `parseInt(value) || null`, so the parsed
delay is determined by the LAST such line alone: a parseable non-zero value
stands, while a non-numeric (or zero) value resets the delay to `none`
even if an earlier line was valid. -/
theorem claim7_last_line_decides {content : String} {pre : List String}
    {l : String} {post : List String}
    (hsplit : jsSplitNewline content = pre ++ l :: post)
    (hl : isCrawlDelayLine l = true)
    (hpost : ∀ m ∈ post, isCrawlDelayLine m = false) :
    (fetchRobotsTxt (some content)).crawlDelay = crawlDelayOfLine l ∧
    (∀ v : Int, jsParseInt (jsTrim (jsDrop (jsTrim l) 12)) = some v → v ≠ 0 →
      (fetchRobotsTxt (some content)).crawlDelay = some v) ∧
    (jsParseInt (jsTrim (jsDrop (jsTrim l) 12)) = none →
      (fetchRobotsTxt (some content)).crawlDelay = none) := by
  have hmain := fetchRobotsTxt_delay_last hsplit hl hpost
  refine ⟨hmain, ?_, ?_⟩
  · intro v hv hvne
    rw [hmain]
    unfold crawlDelayOfLine jsParseIntOrNull
    rw [hv]
    simp [hvne]
  · intro hv
    rw [hmain]
    unfold crawlDelayOfLine jsParseIntOrNull
    rw [hv]

/-- Witness for the amended C7: with two crawl-delay lines the last one
(value 7) alone decides the result. -/
theorem claim7_witness :
    (fetchRobotsTxt (some "Crawl-delay: 3\nCrawl-delay: 7")).crawlDelay =
      some 7 :=
  (@claim7_last_line_decides "Crawl-delay: 3\nCrawl-delay: 7"
    ["Crawl-delay: 3"] "Crawl-delay: 7" []
    (by decide) (by decide) (by intro m hm; cases hm)).2.1 7
    (by decide) (by decide)

/-! ## Claim C8 -/

/-- Claim C8: link classification in `analyzePage`.  When the href resolves
against the page's URL, `isInternal` holds exactly when the resolved
hostname equals the hostname of the page URL (the crawl origin's host for
pages on the crawled site); when resolution throws, `isInternal` holds iff
the href does not begin with `http` (which covers both `http` and `https`
schemes) — the code's `startsWith('/') || !startsWith('http')` collapses to
the latter because a `/`-initial string cannot begin with `http`. -/
theorem claim8_link_classification (pageU : ParsedUrl) (href : String) :
    (∀ u, resolveUrl href pageU = some u →
      (classifyInternal href pageU = true ↔ u.host = pageU.host)) ∧
    (resolveUrl href pageU = none →
      (classifyInternal href pageU = true ↔
        jsStartsWith href "http" = false)) := by
  unfold classifyInternal
  cases hr : resolveUrl href pageU with
  | some v =>
    constructor
    · intro u hu
      obtain rfl : v = u := Option.some.inj hu
      simp [beq_iff_eq]
    · intro hno
      exact Option.noConfusion hno
  | none =>
    constructor
    · intro u hu
      exact Option.noConfusion hu
    · intro _
      cases hslash : jsStartsWith href "/" with
      | false => simp [hslash, Bool.not_eq_true']
      | true =>
        have hh := jsStartsWith_slash_not_http href hslash
        simp [hslash, hh]

/-- Witness for C8: `/b` from `https://example.com/a` is internal,
`https://other.com/b` is external, the schemeless relative `contact` is
internal, and the unresolvable `http://` (scheme-initial) is external. -/
theorem claim8_witness :
    classifyInternal "/b" ⟨"https", "example.com", "/a"⟩ = true ∧
    classifyInternal "https://other.com/b" ⟨"https", "example.com", "/a"⟩ =
      false ∧
    classifyInternal "contact" ⟨"https", "example.com", "/a"⟩ = true ∧
    classifyInternal "http://" ⟨"https", "example.com", "/a"⟩ = false := by
  refine ⟨?_, ?_, ?_, ?_⟩
  · exact ((claim8_link_classification ⟨"https", "example.com", "/a"⟩ "/b").1
      ⟨"https", "example.com", "/b"⟩ (by decide)).mpr (by decide)
  · have h := (claim8_link_classification ⟨"https", "example.com", "/a"⟩
      "https://other.com/b").1 ⟨"https", "other.com", "/b"⟩ (by decide)
    cases hc : classifyInternal "https://other.com/b"
        ⟨"https", "example.com", "/a"⟩ with
    | false => rfl
    | true => exact absurd (h.mp hc) (by decide)
  · exact ((claim8_link_classification ⟨"https", "example.com", "/a"⟩
      "contact").1 ⟨"https", "example.com", "/contact"⟩ (by decide)).mpr
      (by decide)
  · have h := (claim8_link_classification ⟨"https", "example.com", "/a"⟩
      "http://").2 (by decide)
    cases hc : classifyInternal "http://" ⟨"https", "example.com", "/a"⟩ with
    | false => rfl
    | true => exact absurd (h.mp hc) (by decide)

/-! ## Claim C9 -/

/-- Robots-respecting configuration used by the C9 witness. -/
def exCfgRobots : CrawlConfig := ⟨"https://e.com/", 10, false, true⟩

/-- Claim C9: when the last line reaching the `crawl-delay:` branch carries
the numeric value 0, `parseInt(...) || null` coerces it to `null`, so the
parsed policy has no crawl delay and every politeness sleep of a crawl
using that policy is the default 1000 ms. -/
theorem claim9_zero_delay_defaults {content : String} {pre : List String}
    {l : String} {post : List String}
    (hsplit : jsSplitNewline content = pre ++ l :: post)
    (hl : isCrawlDelayLine l = true)
    (hzero : jsParseInt (jsTrim (jsDrop (jsTrim l) 12)) = some 0)
    (hpost : ∀ m ∈ post, isCrawlDelayLine m = false) :
    (fetchRobotsTxt (some content)).crawlDelay = none ∧
    ∀ (web : String → Option (List Anchor))
      (smw : String → Option SitemapDoc) (fuel : Nat) (cfg : CrawlConfig)
      (out : CrawlOutcome),
      cfg.respectRobotsTxt = true →
      crawlSite web (some content) smw fuel cfg = some out →
      out.sleepsMs = out.results.map (fun _ => (1000 : Int)) := by
  have hnone : (fetchRobotsTxt (some content)).crawlDelay = none := by
    rw [fetchRobotsTxt_delay_last hsplit hl hpost]
    unfold crawlDelayOfLine jsParseIntOrNull
    rw [hzero]
    simp
  refine ⟨hnone, ?_⟩
  intro web smw fuel cfg out hrr h
  obtain ⟨seedU, hs, hout⟩ := crawlSite_inv h
  subst hout
  have hsleeps := crawlFromRobots_sleeps web
    (effectiveRobots cfg.respectRobotsTxt (some content)) smw fuel cfg seedU
  have hrob : (effectiveRobots cfg.respectRobotsTxt
      (some content)).crawlDelay = none := by
    unfold effectiveRobots
    rw [hrr]
    simpa using hnone
  rw [hsleeps]
  simp only [hrob]
  rfl

/-- Witness for C9: a robots body whose only directive is `crawl-delay: 0`
yields no crawl delay, and the concrete crawl under it sleeps 1000 ms per
returned record. -/
theorem claim9_witness :
    (fetchRobotsTxt (some "crawl-delay: 0")).crawlDelay = none ∧
    exOutSeedLink.sleepsMs =
      exOutSeedLink.results.map (fun _ => (1000 : Int)) := by
  have h := @claim9_zero_delay_defaults "crawl-delay: 0" [] "crawl-delay: 0"
    [] (by decide) (by decide) (by decide) (by intro m hm; cases hm)
  exact ⟨h.1, h.2 exWebSeedLink noSitemapWeb 5 exCfgRobots exOutSeedLink
    (by decide) (by decide)⟩

/-! ## Claim C10 -/

/-- Claim C10: the `disallow:` patterns parsed from robots.txt are dead
data — replacing the parsed disallow list by the empty list changes
nothing observable about the crawl: visited URLs, returned records, final
frontier and sleeps all coincide. -/
theorem claim10_disallow_never_consulted
    (web : String → Option (List Anchor)) (robots : RobotsTxt)
    (smw : String → Option SitemapDoc) (fuel : Nat) (cfg : CrawlConfig)
    (seedU : ParsedUrl) :
    (crawlFromRobots web robots smw fuel cfg seedU).crawledUrls =
      (crawlFromRobots web { robots with disallowed := [] } smw fuel cfg
        seedU).crawledUrls ∧
    (crawlFromRobots web robots smw fuel cfg seedU).results =
      (crawlFromRobots web { robots with disallowed := [] } smw fuel cfg
        seedU).results ∧
    (crawlFromRobots web robots smw fuel cfg seedU).urlsToCrawl =
      (crawlFromRobots web { robots with disallowed := [] } smw fuel cfg
        seedU).urlsToCrawl ∧
    (crawlFromRobots web robots smw fuel cfg seedU).sleepsMs =
      (crawlFromRobots web { robots with disallowed := [] } smw fuel cfg
        seedU).sleepsMs := by
  cases robots with
  | mk sitemaps disallowed crawlDelay =>
    exact ⟨rfl, rfl, rfl, rfl⟩

end SeoCrawler
